import Mathlib

/-!
Verification development for the Collatz scanning program (`src/main.rs`).

The Rust program is shallowly embedded: `BigUint` values become `Nat`,
`u64` arithmetic becomes `Nat` with explicit wrapping/saturation at `2^64`,
possibly non-terminating loops become fuel-indexed functions returning
`Option`, and file/channel side effects become explicit state fields
(`ScanState`).  Definitions keep the source's names where possible.
-/

/-- Embeds `collatz_next` (main.rs:16-22): `n/2` when even, `3n+1` when odd.
`n >> 1` on an unsigned big integer is integer halving. -/
def collatz_next (n : Nat) : Nat :=
  if n % 2 = 0 then n / 2 else 3 * n + 1

/-- Embeds the `Outcome` enum (main.rs:24-29). -/
inductive Outcome where
  | ReachesOne
  | NontrivialCycle
  | StepsOverflow
deriving DecidableEq

/-- The orbit of a starting value: `orbit start k` is `start` after `k`
applications of `collatz_next`. -/
def orbit (start : Nat) : Nat → Nat
  | 0 => start
  | k + 1 => collatz_next (orbit start k)

/-- Embeds the tortoise initialisation in `detect_outcome`
(main.rs:42): `let mut tortoise = collatz_next(start)`. -/
def tortoiseInit (start : Nat) : Nat := collatz_next start

/-- Embeds the hare initialisation in `detect_outcome`
(main.rs:43): `let mut hare = collatz_next(&collatz_next(&tortoise))`. -/
def hareInit (start : Nat) : Nat := collatz_next (collatz_next (tortoiseInit start))

/-- `u64::MAX`. -/
def u64Max : Nat := 2 ^ 64 - 1

/-- Number of equality checks the Floyd loop performs after the first one.
The Rust loop (main.rs:45-54) checks `tortoise == hare`, moves both
pointers, increments `step_count` (starting from 0) and returns
`StepsOverflow` as soon as `step_count == u64::MAX`; so checks happen after
`0, 1, ..., u64::MAX - 1` moves. -/
def floydBudget : Nat := u64Max - 1

/-- Embeds the Floyd loop of `detect_outcome` (main.rs:45-54).
`floydLoop t h fuel` checks `t = h`, then advances the tortoise one step
and the hare two steps, for at most `fuel + 1` checks; `none` models the
`StepsOverflow` exit of the loop. -/
def floydLoop (t h : Nat) : Nat → Option Nat
  | 0 => if t = h then some t else none
  | fuel + 1 =>
    if t = h then some t
    else floydLoop (collatz_next t) (collatz_next (collatz_next h)) fuel

/-- The pointer pair of the Floyd loop after `k` iterations, starting from
pointers `t` and `h`: each iteration advances the tortoise one orbit step
and the hare two orbit steps (main.rs:48-50). -/
def floydIterate (t h : Nat) : Nat → Nat × Nat
  | 0 => (t, h)
  | k + 1 => floydIterate (collatz_next t) (collatz_next (collatz_next h)) k

/-- Embeds the meeting-point walk of `detect_outcome` (main.rs:57-64):
walk forward from `meet`; revisiting `1` means `ReachesOne`, returning to
`meet` without hitting `1` means `NontrivialCycle`.  The walk in the Rust
code has no step bound, so the embedding takes a fuel argument and returns
`none` when the fuel runs out. -/
def cycleWalk (meet : Nat) : Nat → Nat → Option Outcome
  | _, 0 => none
  | x, fuel + 1 =>
    if x = 1 then some Outcome.ReachesOne
    else
      let x2 := collatz_next x
      if x2 = meet then some Outcome.NontrivialCycle
      else cycleWalk meet x2 fuel

/-- Embeds `detect_outcome` (main.rs:38-65).  `walkFuel` bounds only the
final meeting-point walk (unbounded in the source); the Floyd loop itself
carries the source's own `u64` iteration ceiling. -/
def detect_outcome (start : Nat) (walkFuel : Nat) : Option Outcome :=
  match floydLoop (tortoiseInit start) (hareInit start) floydBudget with
  | none => some Outcome.StepsOverflow
  | some meet => cycleWalk meet meet walkFuel

/-- Embeds the xorshift128+ state `struct Rng { s0: u64, s1: u64 }`
(main.rs:306).  The fields are naturals kept below `2^64`. -/
structure Rng where
  s0 : Nat
  s1 : Nat
deriving DecidableEq

/-- The `u64` modulus. -/
def U64 : Nat := 2 ^ 64

/-- Embeds `Rng::next_u64` (main.rs:320-329).  `<<<` wraps at `2^64` as the
Rust `u64` shift does; xor and right shifts cannot overflow. -/
def next_u64 (r : Rng) : Nat × Rng :=
  let s1a := r.s0
  let s0 := r.s1
  let s1b := s1a ^^^ ((s1a <<< 23) % U64)
  let s1New := ((s1b ^^^ s0) ^^^ (s1b >>> 18)) ^^^ (s0 >>> 5)
  ((s1New + s0) % U64, { s0 := s0, s1 := s1New })

/-- Fuel-indexed helper for `beBytesLen`: divides by 256 until the value
fits in one byte.  The fuel is instantiated with the value itself, which
always dominates the recursion depth. -/
def beBytesLenAux : Nat → Nat → Nat
  | 0, _ => 1
  | fuel + 1, n => if n < 256 then 1 else 1 + beBytesLenAux fuel (n / 256)

/-- Big-endian byte length of a `BigUint`, embedding `span.to_bytes_be().len()`
(main.rs:339); `num_bigint` represents `0` as the single byte `0`. -/
def beBytesLen (n : Nat) : Nat := beBytesLenAux n n

/-- Embeds `u64::to_be_bytes` (main.rs:347): the eight big-endian bytes. -/
def beBytes8 (r : Nat) : List Nat :=
  [(r >>> 56) % 256, (r >>> 48) % 256, (r >>> 40) % 256, (r >>> 32) % 256,
   (r >>> 24) % 256, (r >>> 16) % 256, (r >>> 8) % 256, r % 256]

/-- The big-endian bytes of `chunks` successive `next_u64` outputs, with the
final generator state.  The byte-filling loop of `gen_range_biguint`
(main.rs:343-351) advances by `min(8, len - i)` bytes per draw, so it makes
exactly `⌈len / 8⌉` draws; each draw contributes a big-endian prefix of its
eight bytes, which concatenation-then-truncation reproduces. -/
def fillChunks (rng : Rng) : Nat → List Nat × Rng
  | 0 => ([], rng)
  | chunks + 1 =>
    let nr := next_u64 rng
    let rest := fillChunks nr.2 chunks
    (beBytes8 nr.1 ++ rest.1, rest.2)

/-- Embeds the byte-filling loop of `gen_range_biguint` (main.rs:343-351):
fill `remaining` bytes from successive `next_u64` outputs. -/
def fillBytes (rng : Rng) (remaining : Nat) : List Nat × Rng :=
  let r := fillChunks rng ((remaining + 7) / 8)
  (r.1.take remaining, r.2)

/-- Embeds `BigUint::from_bytes_be` (main.rs:352). -/
def fromBytesBE (l : List Nat) : Nat :=
  l.foldl (fun acc b => acc * 256 + b) 0

/-- Embeds the rejection loop of `gen_range_biguint` (main.rs:341-357):
draw `len` bytes, accept the value if it is below `span`, otherwise retry.
The Rust loop is unbounded, so the embedding takes fuel. -/
def genLoop (low span len : Nat) : Rng → Nat → Option (Nat × Rng)
  | _, 0 => none
  | rng, fuel + 1 =>
    let fb := fillBytes rng len
    let v := fromBytesBE fb.1
    if v < span then some (low + v, fb.2) else genLoop low span len fb.2 fuel

/-- Embeds `Rng::gen_range_biguint` (main.rs:333-358). -/
def gen_range_biguint (rng : Rng) (low high_inclusive : Nat) (fuel : Nat) :
    Option (Nat × Rng) :=
  if high_inclusive ≤ low then some (low, rng)
  else
    let span := high_inclusive - low + 1
    let len := max (beBytesLen span) 1
    genLoop low span len rng fuel

/-- The options record `real_main` runs with, after the interval arguments
have been clamped (main.rs:163-164).  `walkFuel` and `sampleFuel` are fuel
parameters of the embedding for the two unbounded inner loops, not program
configuration. -/
structure Config where
  start : Nat
  count : Option Nat
  random : Bool
  progress_interval : Nat
  viz : Bool
  viz_interval : Nat
  walkFuel : Nat
  sampleFuel : Nat
deriving DecidableEq

/-- Builds the configuration from the parsed arguments, embedding
`progress_interval_arg.max(1)` and `viz_interval_arg.max(1)`
(main.rs:163-164). -/
def mkConfig (start : Nat) (count : Option Nat) (random : Bool)
    (progress_interval_arg : Nat) (viz : Bool) (viz_interval_arg : Nat)
    (walkFuel sampleFuel : Nat) : Config :=
  { start := start, count := count, random := random,
    progress_interval := max progress_interval_arg 1,
    viz := viz, viz_interval := max viz_interval_arg 1,
    walkFuel := walkFuel, sampleFuel := sampleFuel }

/-- The scan-loop state of `real_main`, with the externally visible effects
made explicit: `progress` is the single value the checkpoint file holds,
`progressWrites` the ordered log of checkpoint writes, `solution` the
single line the solution file holds, `solutionWrites` its write log,
`candidates` the processed candidates in order, `vizSends` the attempted
`Draw` channel sends.  The time-based `Stats` sends (main.rs:249-260)
depend on a wall clock and are not modelled. -/
structure ScanState where
  processed : Nat
  rng : Rng
  progress : Option Nat
  progressWrites : List Nat
  solution : Option String
  solutionWrites : List String
  candidates : List Nat
  vizSends : List Nat
deriving DecidableEq

/-- Embeds `processed.saturating_add(1)` (main.rs:247). -/
def satSucc (n : Nat) : Nat := min (n + 1) u64Max

/-- Embeds `write_progress_number` (main.rs:285-293): the checkpoint file is
truncated and rewritten with the single value. -/
def write_progress_number (st : ScanState) (v : Nat) : ScanState :=
  { st with progress := some v, progressWrites := st.progressWrites ++ [v] }

/-- Embeds `write_solution` (main.rs:295-303): the solution file is
truncated and rewritten with the single line. -/
def write_solution (st : ScanState) (line : String) : ScanState :=
  { st with solution := some line, solutionWrites := st.solutionWrites ++ [line] }

/-- Lower bound of the random sampling range, `2^68` (main.rs:190). -/
def rand_low : Nat := 2 ^ 68

/-- Upper bound of the random sampling range, `2^2000 - 1` (main.rs:191). -/
def rand_high_inclusive : Nat := 2 ^ 2000 - 1

/-- Embeds the candidate selection at the top of the scan loop
(main.rs:204-208): a fresh sample in random mode, `start + processed`
in sequential mode. -/
def pickCandidate (cfg : Config) (st : ScanState) : Option (Nat × Rng) :=
  if cfg.random then
    gen_range_biguint st.rng rand_low rand_high_inclusive cfg.sampleFuel
  else
    some (cfg.start + st.processed, st.rng)

/-- The periodic visualization `Draw` send attempt (main.rs:216-221),
logged whenever the producer reaches the `try_send`. -/
def scanVizSend (cfg : Config) (st : ScanState) (current : Nat) : ScanState :=
  if cfg.viz && st.processed % cfg.viz_interval == 0 then
    { st with vizSends := st.vizSends ++ [current] }
  else st

/-- The cadence-driven effects in the middle of the scan loop body: the
periodic checkpoint write (sequential mode only, main.rs:211-214) followed
by the periodic visualization `Draw` send attempt (main.rs:216-221). -/
def scanProgressViz (cfg : Config) (st : ScanState) (current : Nat) : ScanState :=
  scanVizSend cfg
    (if !cfg.random && st.processed % cfg.progress_interval == 0 then
       write_progress_number st current
     else st)
    current

/-- The tail of the scan loop body after the outcome is known: the
`match outcome` (main.rs:227-245), the `processed` increment (main.rs:247)
and the count-limit check with its final `Draw` send (main.rs:261-270).
The returned flag is whether the loop `break`s. -/
def scanOutcome (cfg : Config) (st : ScanState) (current : Nat) :
    Outcome → ScanState × Bool
  | Outcome.ReachesOne =>
    let st4 := { st with processed := satSucc st.processed }
    match cfg.count with
    | some limit =>
      if limit ≤ st4.processed then
        let st5 :=
          if cfg.viz then { st4 with vizSends := st4.vizSends ++ [current] }
          else st4
        (st5, true)
      else (st4, false)
    | none => (st4, false)
  | Outcome.NontrivialCycle =>
    let st4 := write_solution st ("NONTRIVIAL_CYCLE_START " ++ Nat.repr current)
    let st5 := if !cfg.random then write_progress_number st4 current else st4
    (st5, true)
  | Outcome.StepsOverflow =>
    let st4 := write_solution st ("RUNAWAY_STEPS_OVERFLOW_START " ++ Nat.repr current)
    let st5 := if !cfg.random then write_progress_number st4 current else st4
    (st5, true)

/-- Embeds one iteration of the scan loop of `real_main` (main.rs:203-271).
Returns the new state and whether the loop `break`s; `none` means a fuel
parameter of the embedding ran out inside the iteration. -/
def scanIter (cfg : Config) (st : ScanState) : Option (ScanState × Bool) :=
  match pickCandidate cfg st with
  | none => none
  | some (current, rng') =>
    match detect_outcome current cfg.walkFuel with
    | none => none
    | some outcome =>
      let st1 : ScanState :=
        { st with rng := rng', candidates := st.candidates ++ [current] }
      some (scanOutcome cfg (scanProgressViz cfg st1 current) current outcome)

/-- The state on entry to the scan loop: counters at zero, files empty, and
in sequential mode the startup checkpoint write of the starting value
(main.rs:180-182). -/
def scanInit (cfg : Config) (r0 : Rng) : ScanState :=
  let st0 : ScanState :=
    { processed := 0, rng := r0, progress := none, progressWrites := [],
      solution := none, solutionWrites := [], candidates := [], vizSends := [] }
  if cfg.random then st0 else write_progress_number st0 cfg.start

/-- Runs the scan loop until it breaks, for at most `fuel` iterations;
`none` means the loop was still running (or an inner fuel ran out). -/
def scanRun (cfg : Config) : Nat → ScanState → Option ScanState
  | 0, _ => none
  | fuel + 1, st =>
    match scanIter cfg st with
    | none => none
    | some (st', stop) => if stop then some st' else scanRun cfg fuel st'

/-- The state after exactly `k` non-breaking iterations of the scan loop;
`none` if the loop broke earlier or an inner fuel ran out. -/
def scanTrace (cfg : Config) : Nat → ScanState → Option ScanState
  | 0, st => some st
  | k + 1, st =>
    match scanIter cfg st with
    | some (st', false) => scanTrace cfg k st'
    | _ => none

/-- Models `str::trim` (main.rs:72): drop whitespace from both ends,
working on the character list of the line. -/
def trimChars (cs : List Char) : List Char :=
  ((cs.dropWhile Char.isWhitespace).reverse.dropWhile Char.isWhitespace).reverse

/-- Decimal digit value of a character. -/
def decDigit (c : Char) : Option Nat :=
  if c.isDigit then some (c.toNat - 48) else none

/-- Value of a non-empty all-digit character list, else `none`. -/
def parseDigits (cs : List Char) : Option Nat :=
  if cs.isEmpty then none
  else
    cs.foldl
      (fun acc c =>
        match acc, decDigit c with
        | some a, some d => some (a * 10 + d)
        | _, _ => none)
      (some 0)

/-- Modelled from the spec: `str::parse::<BigUint>()` (main.rs:74) comes from
the external `num_bigint` library, whose decimal text conversion the spec
excludes as a collaborator; it accepts an optional leading `+` followed by
decimal digits. -/
def parseBigUint (cs : List Char) : Option Nat :=
  match cs with
  | '+' :: rest => parseDigits rest
  | cs => parseDigits cs

/-- The body of the line loop in `read_last_start` (main.rs:71-75): skip a
line that is empty after trimming, keep the parse of a parseable line,
keep the previous value otherwise. -/
def lastStartStep (last : Option Nat) (l : String) : Option Nat :=
  let t := trimChars l.data
  if t = [] then last
  else
    match parseBigUint t with
    | some v => some v
    | none => last

/-- Embeds `read_last_start` (main.rs:67-77) over a checkpoint file modelled
as `none` (absent or unopenable) or the list of its lines: keep the last
line that parses, skipping lines that are empty after trimming. -/
def read_last_start (file : Option (List String)) : Option Nat :=
  match file with
  | none => none
  | some lines => lines.foldl lastStartStep none

/-- The default starting value `2^68` (main.rs:150). -/
def default_start : Nat := 2 ^ 68

/-- Embeds the start determination of `real_main` (main.rs:151-160). -/
def determine_start (start_arg : Option Nat) (resume : Bool)
    (file : Option (List String)) : Nat :=
  match start_arg with
  | some s => s
  | none =>
    if resume then
      match read_last_start file with
      | some last => last + 1
      | none => default_start
    else default_start

/-- Concrete configuration for exercising a terminal finding: sequential
scan from 0 with visualization off. -/
def cfgC4 : Config := mkConfig 0 none false 1000 false 1000 4 0

/-- The loop-entry state of the `cfgC4` scenario. -/
def stInC4 : ScanState := scanInit cfgC4 ⟨1, 2⟩

/-- The state after the first `cfgC4` iteration: candidate 0 is a
nontrivial cycle, so a solution line is written and the scan stops. -/
def stOutC4 : ScanState :=
  { processed := 0, rng := ⟨1, 2⟩, progress := some 0,
    progressWrites := [0, 0, 0],
    solution := some ("NONTRIVIAL_CYCLE_START " ++ Nat.repr 0),
    solutionWrites := ["NONTRIVIAL_CYCLE_START " ++ Nat.repr 0],
    candidates := [0], vizSends := [] }

/-- The configuration of the checkpoint-cadence scenario named by the spec:
sequential mode, `start = 1000`, `count = 250`, `progress_interval = 100`. -/
def cfgC2 : Config := mkConfig 1000 (some 250) false 100 false 1000 4 0

/-- An arbitrary generator seed for the `cfgC2` run (sequential mode never
consumes it). -/
def rngC2 : Rng := { s0 := 1, s1 := 2 }

/-- Concrete configuration for exercising a finding-termination checkpoint
write: sequential scan from 0, `progress_interval` argument 7. -/
def cfgC2W : Config := mkConfig 0 none false 7 false 9 4 0

/-- The loop-entry state of the `cfgC2W` scenario. -/
def stInC2W : ScanState := scanInit cfgC2W ⟨5, 6⟩

/-- The state after the first `cfgC2W` iteration: candidate 0 is a
nontrivial cycle, checkpointed at the periodic write and again at
termination. -/
def stOutC2W : ScanState :=
  { processed := 0, rng := ⟨5, 6⟩, progress := some 0,
    progressWrites := [0, 0, 0],
    solution := some ("NONTRIVIAL_CYCLE_START " ++ Nat.repr 0),
    solutionWrites := ["NONTRIVIAL_CYCLE_START " ++ Nat.repr 0],
    candidates := [0], vizSends := [] }

/-- Concrete sequential configuration for the candidate-selection claim:
`start = 1`, no count limit. -/
def cfgC7 : Config := mkConfig 1 none false 1000 false 1000 4 0

/-- The state after two `cfgC7` iterations: candidates 1 and 2, the startup
write plus the `processed = 0` periodic write. -/
def stC7 : ScanState :=
  { processed := 2, rng := ⟨3, 4⟩, progress := some 1, progressWrites := [1, 1],
    solution := none, solutionWrites := [], candidates := [1, 2], vizSends := [] }

/-- A `cfgC7` loop state whose `u64` offset has already saturated at
`u64::MAX` (the state the loop is in once `2^64` candidates have been
processed, the candidate log restarted empty for observation). -/
def stSatC7 : ScanState :=
  { processed := u64Max, rng := ⟨3, 4⟩, progress := none, progressWrites := [],
    solution := none, solutionWrites := [], candidates := [], vizSends := [] }

/-- Concrete sequential configuration with a zero `progress_interval`
argument, which `mkConfig` clamps to 1. -/
def cfgC10 : Config := mkConfig 5 none false 0 false 1000 4 0

/-- The loop-entry state of the `cfgC10` scenario. -/
def stInC10 : ScanState := scanInit cfgC10 ⟨1, 2⟩

/-- The state after the first `cfgC10` iteration: with the clamped interval
every candidate is checkpointed. -/
def stOutC10 : ScanState :=
  { processed := 1, rng := ⟨1, 2⟩, progress := some 5, progressWrites := [5, 5],
    solution := none, solutionWrites := [], candidates := [5], vizSends := [] }

-- Sanity examples (concrete evaluations of the embedding).
example : collatz_next 6 = 3 := by decide
example : collatz_next 7 = 22 := by decide
example : detect_outcome 1 4 = some Outcome.ReachesOne := by decide
example : detect_outcome 0 4 = some Outcome.NontrivialCycle := by decide
example : detect_outcome 27 200 = some Outcome.ReachesOne := by decide
example : read_last_start (some ["", " 42 ", "abc", "100"]) = some 100 := by decide
example : determine_start none true (some ["17"]) = 18 := by decide
example : gen_range_biguint ⟨1, 2⟩ 10 20 1 = some (10, ⟨2, 8388643⟩) := by decide

/-! ## Helper lemmas -/

lemma orbit_succ (s k : Nat) : orbit s (k + 1) = collatz_next (orbit s k) := rfl

lemma floydIterate_orbit (s : Nat) :
    ∀ k i j, floydIterate (orbit s i) (orbit s j) k
      = (orbit s (i + k), orbit s (j + 2 * k)) := by
  intro k
  induction k with
  | zero => intro i j; simp [floydIterate]
  | succ k ih =>
    intro i j
    have h1 : collatz_next (orbit s i) = orbit s (i + 1) := rfl
    have h2 : collatz_next (collatz_next (orbit s j)) = orbit s (j + 2) := rfl
    rw [floydIterate, h1, h2, ih (i + 1) (j + 2)]
    have e1 : i + 1 + k = i + (k + 1) := by omega
    have e2 : j + 2 + 2 * k = j + 2 * (k + 1) := by omega
    rw [e1, e2]

lemma floydLoop_meets :
    ∀ fuel t h m, floydLoop t h fuel = some m →
      ∃ j, j ≤ fuel ∧ floydIterate t h j = (m, m) := by
  intro fuel
  induction fuel with
  | zero =>
    intro t h m hm
    rw [floydLoop] at hm
    by_cases he : t = h
    · rw [if_pos he] at hm
      refine ⟨0, Nat.le_refl 0, ?_⟩
      injection hm with hm
      rw [floydIterate, ← he, hm]
    · rw [if_neg he] at hm
      exact absurd hm (by simp)
  | succ fuel ih =>
    intro t h m hm
    rw [floydLoop] at hm
    by_cases he : t = h
    · rw [if_pos he] at hm
      refine ⟨0, Nat.zero_le _, ?_⟩
      injection hm with hm
      rw [floydIterate, ← he, hm]
    · rw [if_neg he] at hm
      obtain ⟨j, hj, hit⟩ := ih _ _ _ hm
      exact ⟨j + 1, by omega, by rw [floydIterate]; exact hit⟩

lemma cycleWalk_ne_overflow :
    ∀ fuel meet x, cycleWalk meet x fuel ≠ some Outcome.StepsOverflow := by
  intro fuel
  induction fuel with
  | zero => intro meet x; simp [cycleWalk]
  | succ fuel ih =>
    intro meet x
    rw [cycleWalk]
    by_cases h1 : x = 1
    · simp [h1]
    · rw [if_neg h1]
      by_cases h2 : collatz_next x = meet
      · simp [h2]
      · simpa [h2] using ih meet (collatz_next x)

lemma genLoop_some_bound :
    ∀ fuel low span len rng v rng2,
      genLoop low span len rng fuel = some (v, rng2) → low ≤ v ∧ v < low + span := by
  intro fuel
  induction fuel with
  | zero => intro low span len rng v rng2 h; simp [genLoop] at h
  | succ fuel ih =>
    intro low span len rng v rng2 h
    rw [genLoop] at h
    by_cases hacc : fromBytesBE (fillBytes rng len).1 < span
    · rw [if_pos hacc] at h
      have hv : low + fromBytesBE (fillBytes rng len).1 = v := by
        have := congrArg (Option.map Prod.fst) h
        simpa using this
      omega
    · rw [if_neg hacc] at h
      exact ih _ _ _ _ _ _ h

lemma gen_range_biguint_bounds_aux (rng : Rng) (low high_inclusive fuel v : Nat)
    (rng2 : Rng)
    (h : gen_range_biguint rng low high_inclusive fuel = some (v, rng2)) :
    low ≤ v ∧
      (if high_inclusive ≤ low then v = low ∧ rng2 = rng
       else v ≤ high_inclusive) := by
  unfold gen_range_biguint at h
  by_cases hd : high_inclusive ≤ low
  · rw [if_pos hd] at h
    have hv : low = v ∧ rng = rng2 := by
      have h1 := congrArg (Option.map Prod.fst) h
      have h2 := congrArg (Option.map Prod.snd) h
      simp_all
    rw [if_pos hd]
    exact ⟨by omega, hv.1.symm, hv.2.symm⟩
  · rw [if_neg hd] at h
    have hb := genLoop_some_bound _ _ _ _ _ _ _ h
    rw [if_neg hd]
    omega

lemma scanVizSend_preserves (cfg : Config) (st : ScanState) (c : Nat) :
    (scanVizSend cfg st c).processed = st.processed ∧
    (scanVizSend cfg st c).rng = st.rng ∧
    (scanVizSend cfg st c).candidates = st.candidates ∧
    (scanVizSend cfg st c).solution = st.solution ∧
    (scanVizSend cfg st c).solutionWrites = st.solutionWrites ∧
    (scanVizSend cfg st c).progress = st.progress ∧
    (scanVizSend cfg st c).progressWrites = st.progressWrites := by
  unfold scanVizSend
  split <;> simp

lemma scanProgressViz_preserves (cfg : Config) (st : ScanState) (c : Nat) :
    (scanProgressViz cfg st c).processed = st.processed ∧
    (scanProgressViz cfg st c).rng = st.rng ∧
    (scanProgressViz cfg st c).candidates = st.candidates ∧
    (scanProgressViz cfg st c).solution = st.solution ∧
    (scanProgressViz cfg st c).solutionWrites = st.solutionWrites := by
  unfold scanProgressViz scanVizSend
  split <;> split <;> simp [write_progress_number]

lemma scanProgressViz_rand (cfg : Config) (st : ScanState) (c : Nat)
    (hr : cfg.random = true) :
    (scanProgressViz cfg st c).progress = st.progress ∧
    (scanProgressViz cfg st c).progressWrites = st.progressWrites := by
  unfold scanProgressViz
  rw [hr]
  simp only [Bool.not_true, Bool.false_and, Bool.false_eq_true, ite_false,
    scanVizSend_preserves]
  exact ⟨trivial, trivial⟩

lemma scanProgressViz_seq_hit (cfg : Config) (st : ScanState) (c : Nat)
    (hr : cfg.random = false) (hm : st.processed % cfg.progress_interval = 0) :
    (scanProgressViz cfg st c).progress = some c ∧
    (scanProgressViz cfg st c).progressWrites = st.progressWrites ++ [c] := by
  unfold scanProgressViz
  rw [hr]
  simp only [Bool.not_false, Bool.true_and, hm, beq_self_eq_true, ite_true,
    scanVizSend_preserves]
  simp [write_progress_number, scanVizSend_preserves]

lemma scanProgressViz_writes_extend (cfg : Config) (st : ScanState) (c : Nat) :
    (scanProgressViz cfg st c).progressWrites = st.progressWrites ∨
    (scanProgressViz cfg st c).progressWrites = st.progressWrites ++ [c] := by
  unfold scanProgressViz
  rcases scanVizSend_preserves cfg
      (if !cfg.random && st.processed % cfg.progress_interval == 0 then
         write_progress_number st c
       else st) c with ⟨-, -, -, -, -, -, hp⟩
  rw [hp]
  split <;> simp [write_progress_number]

lemma scanOutcome_reachesOne (cfg : Config) (st : ScanState) (c : Nat) :
    (scanOutcome cfg st c Outcome.ReachesOne).1.solution = st.solution ∧
    (scanOutcome cfg st c Outcome.ReachesOne).1.solutionWrites = st.solutionWrites ∧
    (scanOutcome cfg st c Outcome.ReachesOne).1.processed = satSucc st.processed ∧
    (scanOutcome cfg st c Outcome.ReachesOne).1.candidates = st.candidates ∧
    (scanOutcome cfg st c Outcome.ReachesOne).1.progress = st.progress ∧
    (scanOutcome cfg st c Outcome.ReachesOne).1.progressWrites = st.progressWrites ∧
    ((scanOutcome cfg st c Outcome.ReachesOne).2 = true →
      ∃ limit, cfg.count = some limit ∧ limit ≤ satSucc st.processed) := by
  simp only [scanOutcome]
  cases hcnt : cfg.count with
  | none => simp
  | some limit =>
    by_cases hlim : limit ≤ satSucc st.processed
    · simp only [hlim, ite_true]
      split <;> simp [hlim]
    · simp [hlim]

lemma scanOutcome_cycle (cfg : Config) (st : ScanState) (c : Nat) :
    (scanOutcome cfg st c Outcome.NontrivialCycle).2 = true ∧
    (scanOutcome cfg st c Outcome.NontrivialCycle).1.solution
      = some ("NONTRIVIAL_CYCLE_START " ++ Nat.repr c) ∧
    (scanOutcome cfg st c Outcome.NontrivialCycle).1.solutionWrites
      = st.solutionWrites ++ ["NONTRIVIAL_CYCLE_START " ++ Nat.repr c] := by
  simp only [scanOutcome]
  split <;> simp [write_solution, write_progress_number]

lemma scanOutcome_overflow (cfg : Config) (st : ScanState) (c : Nat) :
    (scanOutcome cfg st c Outcome.StepsOverflow).2 = true ∧
    (scanOutcome cfg st c Outcome.StepsOverflow).1.solution
      = some ("RUNAWAY_STEPS_OVERFLOW_START " ++ Nat.repr c) ∧
    (scanOutcome cfg st c Outcome.StepsOverflow).1.solutionWrites
      = st.solutionWrites ++ ["RUNAWAY_STEPS_OVERFLOW_START " ++ Nat.repr c] := by
  simp only [scanOutcome]
  split <;> simp [write_solution, write_progress_number]

lemma scanOutcome_finding_seq (cfg : Config) (st : ScanState) (c : Nat)
    (oc : Outcome) (hr : cfg.random = false) (hoc : oc ≠ Outcome.ReachesOne) :
    (scanOutcome cfg st c oc).2 = true ∧
    (scanOutcome cfg st c oc).1.progress = some c ∧
    (scanOutcome cfg st c oc).1.progressWrites = st.progressWrites ++ [c] := by
  cases oc with
  | ReachesOne => exact absurd rfl hoc
  | NontrivialCycle =>
    simp only [scanOutcome]
    rw [hr]
    simp [write_solution, write_progress_number]
  | StepsOverflow =>
    simp only [scanOutcome]
    rw [hr]
    simp [write_solution, write_progress_number]

lemma scanOutcome_rand (cfg : Config) (st : ScanState) (c : Nat) (oc : Outcome)
    (hr : cfg.random = true) :
    (scanOutcome cfg st c oc).1.progress = st.progress ∧
    (scanOutcome cfg st c oc).1.progressWrites = st.progressWrites ∧
    (scanOutcome cfg st c oc).1.candidates = st.candidates := by
  cases oc with
  | ReachesOne =>
    simp only [scanOutcome]
    cases cfg.count with
    | none => simp
    | some limit =>
      by_cases hv : cfg.viz = true <;>
        by_cases hlim : limit ≤ satSucc st.processed <;>
          simp [hv, hlim]
  | NontrivialCycle =>
    simp only [scanOutcome]
    rw [hr]
    simp [write_solution]
  | StepsOverflow =>
    simp only [scanOutcome]
    rw [hr]
    simp [write_solution]

lemma scanIter_seq_cont (cfg : Config) (st st' : ScanState)
    (hr : cfg.random = false)
    (h : scanIter cfg st = some (st', false)) :
    st'.candidates = st.candidates ++ [cfg.start + st.processed] ∧
    st'.processed = satSucc st.processed := by
  unfold scanIter pickCandidate at h
  rw [hr] at h
  simp only [Bool.false_eq_true, ite_false] at h
  cases hdet : detect_outcome (cfg.start + st.processed) cfg.walkFuel with
  | none => rw [hdet] at h; simp at h
  | some oc =>
    rw [hdet] at h
    simp only at h
    injection h with h
    have hst := congrArg Prod.fst h
    have hstop := congrArg Prod.snd h
    simp only at hst hstop
    obtain ⟨hp1, -, hp3, -, -⟩ :=
      scanProgressViz_preserves cfg
        { st with rng := st.rng,
                  candidates := st.candidates ++ [cfg.start + st.processed] }
        (cfg.start + st.processed)
    cases oc with
    | ReachesOne =>
      obtain ⟨-, -, q3, q4, -, -, -⟩ :=
        scanOutcome_reachesOne cfg
          (scanProgressViz cfg
            { st with rng := st.rng,
                      candidates := st.candidates ++ [cfg.start + st.processed] }
            (cfg.start + st.processed))
          (cfg.start + st.processed)
      constructor
      · rw [← hst, q4, hp3]
      · rw [← hst, q3, hp1]
    | NontrivialCycle =>
      obtain ⟨q1, -, -⟩ :=
        scanOutcome_cycle cfg
          (scanProgressViz cfg
            { st with rng := st.rng,
                      candidates := st.candidates ++ [cfg.start + st.processed] }
            (cfg.start + st.processed))
          (cfg.start + st.processed)
      rw [q1] at hstop
      exact absurd hstop (by decide)
    | StepsOverflow =>
      obtain ⟨q1, -, -⟩ :=
        scanOutcome_overflow cfg
          (scanProgressViz cfg
            { st with rng := st.rng,
                      candidates := st.candidates ++ [cfg.start + st.processed] }
            (cfg.start + st.processed))
          (cfg.start + st.processed)
      rw [q1] at hstop
      exact absurd hstop (by decide)

lemma scanIter_rand_step (cfg : Config) (st st' : ScanState) (stop : Bool)
    (hr : cfg.random = true)
    (h : scanIter cfg st = some (st', stop)) :
    st'.progress = st.progress ∧
    st'.progressWrites = st.progressWrites ∧
    ∃ c rng2,
      gen_range_biguint st.rng rand_low rand_high_inclusive cfg.sampleFuel
        = some (c, rng2) ∧
      st'.candidates = st.candidates ++ [c] ∧
      rand_low ≤ c ∧ c ≤ rand_high_inclusive := by
  unfold scanIter pickCandidate at h
  rw [hr] at h
  simp only [ite_true] at h
  cases hg : gen_range_biguint st.rng rand_low rand_high_inclusive cfg.sampleFuel with
  | none => rw [hg] at h; simp at h
  | some pr =>
    obtain ⟨c, rng2⟩ := pr
    rw [hg] at h
    simp only at h
    cases hdet : detect_outcome c cfg.walkFuel with
    | none => rw [hdet] at h; simp at h
    | some oc =>
      rw [hdet] at h
      simp only at h
      injection h with h
      have hst := congrArg Prod.fst h
      simp only at hst
      have hbound := gen_range_biguint_bounds_aux _ _ _ _ _ _ hg
      have hlow : ¬(rand_high_inclusive ≤ rand_low) := by
        unfold rand_low rand_high_inclusive
        norm_num
      rw [if_neg hlow] at hbound
      obtain ⟨hpv1, hpv2⟩ :=
        scanProgressViz_rand cfg
          { st with rng := rng2, candidates := st.candidates ++ [c] } c hr
      obtain ⟨hp1, -, hp3, -, -⟩ :=
        scanProgressViz_preserves cfg
          { st with rng := rng2, candidates := st.candidates ++ [c] } c
      obtain ⟨ho1, ho2, ho3⟩ :=
        scanOutcome_rand cfg
          (scanProgressViz cfg
            { st with rng := rng2, candidates := st.candidates ++ [c] } c)
          c oc hr
      refine ⟨?_, ?_, c, rng2, rfl, ?_, hbound.1, hbound.2⟩
      · rw [← hst, ho1, hpv1]
      · rw [← hst, ho2, hpv2]
      · rw [← hst, ho3, hp3]

lemma scanTrace_seq (cfg : Config) (hr : cfg.random = false) :
    ∀ k st st', scanTrace cfg k st = some st' → st.processed ≤ u64Max →
      st'.processed = min (st.processed + k) u64Max ∧
      st'.candidates = st.candidates
        ++ (List.range k).map (fun i => cfg.start + min (st.processed + i) u64Max) := by
  intro k
  induction k with
  | zero =>
    intro st st' h hp
    rw [scanTrace] at h
    injection h with h
    subst h
    refine ⟨by omega, by simp⟩
  | succ k ih =>
    intro st st' h hp
    rw [scanTrace] at h
    cases hit : scanIter cfg st with
    | none => rw [hit] at h; simp at h
    | some pr =>
      obtain ⟨st1, stop⟩ := pr
      rw [hit] at h
      cases stop with
      | true => simp at h
      | false =>
        simp only at h
        obtain ⟨hc1, hp1⟩ := scanIter_seq_cont cfg st st1 hr hit
        have hsat : st1.processed = min (st.processed + 1) u64Max := by
          rw [hp1]
          unfold satSucc
          omega
        have hple : st1.processed ≤ u64Max := by omega
        obtain ⟨ih1, ih2⟩ := ih st1 st' h hple
        constructor
        · rw [ih1]
          omega
        · rw [ih2, hc1, hsat, List.append_assoc, List.range_succ_eq_map,
            List.map_cons, List.map_map]
          have hfun :
              (fun i => cfg.start + min (min (st.processed + 1) u64Max + i) u64Max)
              = ((fun i => cfg.start + min (st.processed + i) u64Max) ∘ Nat.succ) := by
            funext i
            show cfg.start + min (min (st.processed + 1) u64Max + i) u64Max
              = cfg.start + min (st.processed + (Nat.succ i)) u64Max
            omega
          rw [hfun]
          have hhead : cfg.start + min (st.processed + 0) u64Max
              = cfg.start + st.processed := by
            omega
          rw [hhead]
          simp

lemma scanTrace_rand (cfg : Config) (hr : cfg.random = true) :
    ∀ k st st', scanTrace cfg k st = some st' →
      st'.progress = st.progress ∧
      st'.progressWrites = st.progressWrites ∧
      ∀ c, c ∈ st'.candidates →
        c ∈ st.candidates ∨ (rand_low ≤ c ∧ c ≤ rand_high_inclusive) := by
  intro k
  induction k with
  | zero =>
    intro st st' h
    rw [scanTrace] at h
    injection h with h
    subst h
    exact ⟨rfl, rfl, fun c hc => Or.inl hc⟩
  | succ k ih =>
    intro st st' h
    rw [scanTrace] at h
    cases hit : scanIter cfg st with
    | none => rw [hit] at h; simp at h
    | some pr =>
      obtain ⟨st1, stop⟩ := pr
      rw [hit] at h
      cases stop with
      | true => simp at h
      | false =>
        simp only at h
        obtain ⟨r1, r2, c0, rng2, -, r4, r5, r6⟩ :=
          scanIter_rand_step cfg st st1 false hr hit
        obtain ⟨i1, i2, i3⟩ := ih st1 st' h
        refine ⟨i1.trans r1, i2.trans r2, fun c hc => ?_⟩
        rcases i3 c hc with hmem | hb
        · rw [r4] at hmem
          rcases List.mem_append.mp hmem with hmem' | hmem'
          · exact Or.inl hmem'
          · rcases List.mem_singleton.mp hmem' with rfl
            exact Or.inr ⟨r5, r6⟩
        · exact Or.inr hb

/-! ## Claim theorems -/

/-- C8: the orbit step function is pure (a function of its argument alone in
this embedding) and maps every even value `2n` to `n` (integer halving) and
every odd value `2n+1` to `3(2n+1)+1`. -/
theorem collatz_next_parity_law (n : Nat) :
    collatz_next (2 * n) = n ∧ collatz_next (2 * n + 1) = 3 * (2 * n + 1) + 1 := by
  constructor
  · have h : (2 * n) % 2 = 0 := by omega
    rw [collatz_next, if_pos h]
    omega
  · have h : ¬((2 * n + 1) % 2 = 0) := by omega
    rw [collatz_next, if_neg h]

/-- C3: `detect_outcome` applied to the starting value 1 returns
`ReachesOne` (for any meeting-point-walk fuel of at least two steps, which
the unbounded source loop always has). -/
theorem detect_outcome_one (f : Nat) :
    detect_outcome 1 (f + 2) = some Outcome.ReachesOne := by
  have h : floydLoop (tortoiseInit 1) (hareInit 1) floydBudget = some 2 := by decide
  unfold detect_outcome
  rw [h]
  show cycleWalk 2 2 (f + 2) = some Outcome.ReachesOne
  rw [show f + 2 = (f + 1) + 1 by rfl, cycleWalk]
  norm_num
  rw [show collatz_next 2 = 1 by decide]
  norm_num
  rw [cycleWalk]
  norm_num

/-- C9: `detect_outcome` applied to 0 terminates (already with one unit of
walk fuel) and returns `NontrivialCycle`, and 0 is a fixed point of the
orbit step function. -/
theorem detect_outcome_zero (f : Nat) :
    detect_outcome 0 (f + 1) = some Outcome.NontrivialCycle ∧ collatz_next 0 = 0 := by
  refine ⟨?_, by decide⟩
  have h : floydLoop (tortoiseInit 0) (hareInit 0) floydBudget = some 0 := by decide
  unfold detect_outcome
  rw [h]
  show cycleWalk 0 0 (f + 1) = some Outcome.NontrivialCycle
  rw [cycleWalk]
  norm_num
  rw [show collatz_next 0 = 0 by decide]
  norm_num

/-- C1, counterexample: the claim says the fast pointer starts two orbit
steps ahead of `start`, but at `start = 1` the initial hare value is
`orbit 1 3 = 1`, not `orbit 1 2 = 2`: the source initialises the hare two
steps ahead of the tortoise, hence three ahead of `start`. -/
theorem hare_initial_not_two_ahead :
    hareInit 1 ≠ orbit 1 2 ∧ hareInit 1 = orbit 1 3 := by decide

/-- C1, amended: the slow pointer starts one orbit step ahead of `start`
and the fast pointer starts three orbit steps ahead; each loop iteration
advances the slow pointer by one orbit step and the fast pointer by two,
until they are equal (the loop result is a pointer value both reach after
the same number of iterations) or the 64-bit iteration ceiling is reached
(exactly the case in which `detect_outcome` reports `StepsOverflow`). -/
theorem floyd_pointer_schedule (start k t h fuel m wf : Nat) :
    tortoiseInit start = orbit start 1 ∧
    hareInit start = orbit start 3 ∧
    floydIterate (tortoiseInit start) (hareInit start) k
      = (orbit start (k + 1), orbit start (2 * k + 3)) ∧
    (floydLoop t h fuel = some m →
      ∃ j, j ≤ fuel ∧ floydIterate t h j = (m, m)) ∧
    (detect_outcome start wf = some Outcome.StepsOverflow ↔
      floydLoop (tortoiseInit start) (hareInit start) floydBudget = none) := by
  have ht : tortoiseInit start = orbit start 1 := rfl
  have hh : hareInit start = orbit start 3 := rfl
  refine ⟨ht, hh, ?_, floydLoop_meets fuel t h m, ?_⟩
  · rw [ht, hh, floydIterate_orbit]
    have e1 : 1 + k = k + 1 := by omega
    have e2 : 3 + 2 * k = 2 * k + 3 := by omega
    rw [e1, e2]
  · unfold detect_outcome
    cases hf : floydLoop (tortoiseInit start) (hareInit start) floydBudget with
    | none => simp
    | some meet => simp [cycleWalk_ne_overflow]

/-- C1 witness for the amended claim, at `start = 1`, one loop iteration,
and a concrete Floyd loop meeting at 2. -/
theorem floyd_pointer_schedule_witness :
    tortoiseInit 1 = orbit 1 1 ∧
    hareInit 1 = orbit 1 3 ∧
    floydIterate (tortoiseInit 1) (hareInit 1) 1
      = (orbit 1 (1 + 1), orbit 1 (2 * 1 + 3)) ∧
    (floydLoop 4 1 2 = some 2 → ∃ j, j ≤ 2 ∧ floydIterate 4 1 j = (2, 2)) ∧
    (detect_outcome 1 4 = some Outcome.StepsOverflow ↔
      floydLoop (tortoiseInit 1) (hareInit 1) floydBudget = none) :=
  floyd_pointer_schedule 1 1 4 1 2 2 4

/-- C5: with resume enabled and no explicit start, the starting value is
one more than the value `read_last_start` recovers, which is the parse of
the last line whose trimmed text parses as a decimal integer; an absent or
unreadable file (`none`) or one with no parseable line falls back to the
default `2^68`, and the determination is a total function (it never fails). -/
theorem resume_start_policy (file : Option (List String)) (lines : List String)
    (l : String) :
    determine_start none true file
      = (match read_last_start file with
         | some last => last + 1
         | none => default_start) ∧
    default_start = 2 ^ 68 ∧
    read_last_start none = none ∧
    read_last_start (some (lines ++ [l]))
      = (match parseBigUint (trimChars l.data) with
         | some v => some v
         | none => read_last_start (some lines)) := by
  refine ⟨rfl, rfl, rfl, ?_⟩
  show (lines ++ [l]).foldl lastStartStep none = _
  rw [List.foldl_append]
  show lastStartStep (lines.foldl lastStartStep none) l = _
  rw [lastStartStep]
  by_cases ht : trimChars l.data = []
  · rw [ht]
    rfl
  · simp only [ht, ite_false]
    rfl

/-- C6: every value `gen_range_biguint` returns lies in
`[low, high_inclusive]` when `low < high_inclusive`, and for a degenerate
range (`low ≥ high_inclusive`) it returns `low` with the generator state
untouched. -/
theorem gen_range_biguint_in_range (rng : Rng) (low high_inclusive fuel v : Nat)
    (rng2 : Rng)
    (h : gen_range_biguint rng low high_inclusive fuel = some (v, rng2)) :
    low ≤ v ∧
      (if high_inclusive ≤ low then v = low ∧ rng2 = rng
       else v ≤ high_inclusive) :=
  gen_range_biguint_bounds_aux rng low high_inclusive fuel v rng2 h

/-- C4: for a processed candidate `c`, a `ReachesOne` outcome leaves the
solution file untouched and lets the loop continue (a `break` then happens
only because the count limit was reached), while `NontrivialCycle` and
`StepsOverflow` write exactly one solution line `NONTRIVIAL_CYCLE_START c`
or `RUNAWAY_STEPS_OVERFLOW_START c` (decimal candidate) and break the
loop. -/
theorem scan_termination_policy (cfg : Config) (st st' : ScanState) (stop : Bool)
    (c : Nat) (rng' : Rng) (oc : Outcome)
    (hc : pickCandidate cfg st = some (c, rng'))
    (ho : detect_outcome c cfg.walkFuel = some oc)
    (h : scanIter cfg st = some (st', stop)) :
    match oc with
    | Outcome.ReachesOne =>
      st'.solution = st.solution ∧ st'.solutionWrites = st.solutionWrites ∧
      (stop = true → ∃ limit, cfg.count = some limit ∧ limit ≤ st'.processed)
    | Outcome.NontrivialCycle =>
      st'.solution = some ("NONTRIVIAL_CYCLE_START " ++ Nat.repr c) ∧
      st'.solutionWrites
        = st.solutionWrites ++ ["NONTRIVIAL_CYCLE_START " ++ Nat.repr c] ∧
      stop = true
    | Outcome.StepsOverflow =>
      st'.solution = some ("RUNAWAY_STEPS_OVERFLOW_START " ++ Nat.repr c) ∧
      st'.solutionWrites
        = st.solutionWrites ++ ["RUNAWAY_STEPS_OVERFLOW_START " ++ Nat.repr c] ∧
      stop = true := by
  unfold scanIter at h
  simp only [hc, ho] at h
  injection h with h
  obtain ⟨hp1, hp2, hp3, hp4, hp5⟩ :=
    scanProgressViz_preserves cfg
      { st with rng := rng', candidates := st.candidates ++ [c] } c
  have hst := congrArg Prod.fst h
  have hstop := congrArg Prod.snd h
  simp only at hst hstop
  cases oc with
  | ReachesOne =>
    obtain ⟨q1, q2, q3, -, -, -, q7⟩ :=
      scanOutcome_reachesOne cfg
        (scanProgressViz cfg { st with rng := rng', candidates := st.candidates ++ [c] } c) c
    refine ⟨?_, ?_, ?_⟩
    · rw [← hst, q1, hp4]
    · rw [← hst, q2, hp5]
    · intro hstp
      obtain ⟨limit, hl1, hl2⟩ := q7 (hstop.symm ▸ hstp)
      exact ⟨limit, hl1, by rw [← hst, q3]; exact hl2⟩
  | NontrivialCycle =>
    obtain ⟨q1, q2, q3⟩ :=
      scanOutcome_cycle cfg
        (scanProgressViz cfg { st with rng := rng', candidates := st.candidates ++ [c] } c) c
    refine ⟨?_, ?_, ?_⟩
    · rw [← hst, q2]
    · rw [← hst, q3, hp5]
    · rw [← hstop, q1]
  | StepsOverflow =>
    obtain ⟨q1, q2, q3⟩ :=
      scanOutcome_overflow cfg
        (scanProgressViz cfg { st with rng := rng', candidates := st.candidates ++ [c] } c) c
    refine ⟨?_, ?_, ?_⟩
    · rw [← hst, q2]
    · rw [← hst, q3, hp5]
    · rw [← hstop, q1]

/-- C4 witness: scanning sequentially from 0 classifies candidate 0 as a
nontrivial cycle, writes the tagged solution line and stops. -/
theorem scan_termination_policy_witness :
    stOutC4.solution = some ("NONTRIVIAL_CYCLE_START " ++ Nat.repr 0) ∧
    stOutC4.solutionWrites
      = stInC4.solutionWrites ++ ["NONTRIVIAL_CYCLE_START " ++ Nat.repr 0] ∧
    true = true :=
  scan_termination_policy cfgC4 stInC4 stOutC4 true 0 ⟨1, 2⟩
    Outcome.NontrivialCycle (by decide) (by decide) (by decide)

/-- C6 witness: the sampler on the range `[10, 20]` with a concrete seed
accepts its first draw and returns 10. -/
theorem gen_range_biguint_in_range_witness :
    10 ≤ 10 ∧
      (if (20 : Nat) ≤ 10 then 10 = 10 ∧ Rng.mk 2 8388643 = Rng.mk 1 2
       else 10 ≤ 20) :=
  gen_range_biguint_in_range ⟨1, 2⟩ 10 20 1 10 ⟨2, 8388643⟩ (by decide)

/-- C7, counterexample: the claim says the i-th processed sequential
candidate equals the starting value plus i, for every i.  The offset is a
`u64` updated with `saturating_add(1)` (main.rs:247), so once it reaches
`u64::MAX` it stays there: from the saturated loop state, two consecutive
iterations process the same candidate `start + (2^64 - 1)` twice — yet the
claim requires consecutive candidates to differ by one. -/
theorem candidate_index_saturation_counterexample :
    (scanTrace cfgC7 2 stSatC7).map (fun s => (s.candidates, s.processed))
      = some ([cfgC7.start + u64Max, cfgC7.start + u64Max], u64Max) ∧
    cfgC7.start + u64Max ≠ cfgC7.start + (u64Max + 1) := by
  constructor
  · decide
  · decide

/-- C7, amended: along any run of the scan loop from its entry state, in
sequential mode the i-th processed candidate (zero-based) is the starting
value plus `min i (2^64 - 1)` — the `u64` offset saturates at `u64::MAX`,
so the candidate is `start + i` for the first `2^64` candidates and
`start + (2^64 - 1)` from then on; after `k` continuing iterations the
candidate log is exactly the image of that formula on `0, ..., k-1`,
without any bound on `k` — while in random mode every logged candidate was
drawn fresh from the sampler over `[2^68, 2^2000 - 1]`, so lies in that
inclusive range, and no checkpoint write ever occurs (the write log stays
empty and the checkpoint file stays absent). -/
theorem candidate_selection (cfg : Config) (r0 : Rng) (k : Nat) (st : ScanState)
    (h : scanTrace cfg k (scanInit cfg r0) = some st) :
    if cfg.random = true then
      st.progress = none ∧ st.progressWrites = [] ∧
      ∀ c, c ∈ st.candidates → rand_low ≤ c ∧ c ≤ rand_high_inclusive
    else
      st.candidates = (List.range k).map (fun i => cfg.start + min i u64Max) := by
  by_cases hr : cfg.random = true
  · rw [if_pos hr]
    have hinit : scanInit cfg r0
        = { processed := 0, rng := r0, progress := none, progressWrites := [],
            solution := none, solutionWrites := [], candidates := [],
            vizSends := [] } := by
      unfold scanInit
      rw [hr]
      simp
    obtain ⟨t1, t2, t3⟩ := scanTrace_rand cfg hr k _ _ h
    rw [hinit] at t1 t2 t3
    refine ⟨t1, t2, fun c hc => ?_⟩
    rcases t3 c hc with hmem | hb
    · exact absurd hmem (List.not_mem_nil c)
    · exact hb
  · rw [if_neg hr]
    have hr' : cfg.random = false := by
      revert hr
      cases cfg.random <;> simp
    have hip : (scanInit cfg r0).processed = 0 := by
      unfold scanInit
      rw [hr']
      simp [write_progress_number]
    have hic : (scanInit cfg r0).candidates = [] := by
      unfold scanInit
      rw [hr']
      simp [write_progress_number]
    obtain ⟨-, h2⟩ := scanTrace_seq cfg hr' k _ _ h (by rw [hip]; omega)
    rw [h2, hic, hip]
    simp

/-- C7 witness for the amended claim: two sequential iterations from start
1 process exactly the candidates 1 and 2 (`min` is the identity below the
saturation point). -/
theorem candidate_selection_witness :
    if cfgC7.random = true then
      stC7.progress = none ∧ stC7.progressWrites = [] ∧
      ∀ c, c ∈ stC7.candidates → rand_low ≤ c ∧ c ≤ rand_high_inclusive
    else
      stC7.candidates = (List.range 2).map (fun i => cfgC7.start + min i u64Max) :=
  candidate_selection cfgC7 ⟨3, 4⟩ 2 stC7 (by decide)

/-- C10: the scan engine clamps a zero `progress_interval` (and a zero
visualization interval) to 1 before the loop, the clamped interval is
always positive so the cadence check never divides by zero, and with a
clamped interval of 1 every processed candidate is checkpointed: every
sequential iteration appends the candidate to the checkpoint write log. -/
theorem interval_zero_guard (cfg : Config) (st st' : ScanState) (stop : Bool)
    (a : Nat) (hr : cfg.random = false) (hp : cfg.progress_interval = 1)
    (h : scanIter cfg st = some (st', stop)) :
    (∀ s cnt r vz wf sf, (mkConfig s cnt r 0 vz 0 wf sf).progress_interval = 1 ∧
        (mkConfig s cnt r 0 vz 0 wf sf).viz_interval = 1) ∧
    0 < max a 1 ∧
    (∃ rest, st'.progressWrites
        = st.progressWrites ++ (cfg.start + st.processed) :: rest) := by
  refine ⟨fun s cnt r vz wf sf => ⟨by simp [mkConfig], by simp [mkConfig]⟩,
    by omega, ?_⟩
  unfold scanIter pickCandidate at h
  rw [hr] at h
  simp only [Bool.false_eq_true, ite_false] at h
  cases hdet : detect_outcome (cfg.start + st.processed) cfg.walkFuel with
  | none => rw [hdet] at h; simp at h
  | some oc =>
    rw [hdet] at h
    simp only at h
    injection h with h
    have hst := congrArg Prod.fst h
    simp only at hst
    obtain ⟨w1, w2⟩ :=
      scanProgressViz_seq_hit cfg
        { st with rng := st.rng,
                  candidates := st.candidates ++ [cfg.start + st.processed] }
        (cfg.start + st.processed) hr (by rw [hp]; exact Nat.mod_one _)
    cases oc with
    | ReachesOne =>
      obtain ⟨-, -, -, -, -, q6, -⟩ :=
        scanOutcome_reachesOne cfg
          (scanProgressViz cfg
            { st with rng := st.rng,
                      candidates := st.candidates ++ [cfg.start + st.processed] }
            (cfg.start + st.processed))
          (cfg.start + st.processed)
      refine ⟨[], ?_⟩
      rw [← hst, q6, w2]
    | NontrivialCycle =>
      obtain ⟨-, -, q3⟩ :=
        scanOutcome_finding_seq cfg
          (scanProgressViz cfg
            { st with rng := st.rng,
                      candidates := st.candidates ++ [cfg.start + st.processed] }
            (cfg.start + st.processed))
          (cfg.start + st.processed) Outcome.NontrivialCycle hr (by decide)
      refine ⟨[cfg.start + st.processed], ?_⟩
      rw [← hst, q3, w2]
      simp
    | StepsOverflow =>
      obtain ⟨-, -, q3⟩ :=
        scanOutcome_finding_seq cfg
          (scanProgressViz cfg
            { st with rng := st.rng,
                      candidates := st.candidates ++ [cfg.start + st.processed] }
            (cfg.start + st.processed))
          (cfg.start + st.processed) Outcome.StepsOverflow hr (by decide)
      refine ⟨[cfg.start + st.processed], ?_⟩
      rw [← hst, q3, w2]
      simp

/-- C10 witness: with a zero interval argument, the first iteration from
start 5 checkpoints candidate 5. -/
theorem interval_zero_guard_witness :
    (∀ s cnt r vz wf sf, (mkConfig s cnt r 0 vz 0 wf sf).progress_interval = 1 ∧
        (mkConfig s cnt r 0 vz 0 wf sf).viz_interval = 1) ∧
    0 < max 0 1 ∧
    (∃ rest, stOutC10.progressWrites
        = stInC10.progressWrites ++ (cfgC10.start + stInC10.processed) :: rest) :=
  interval_zero_guard cfgC10 stInC10 stOutC10 false 0 (by decide) (by decide)
    (by decide)

set_option maxRecDepth 100000 in
set_option maxHeartbeats 1000000 in
/-- C2, counterexample: in the spec's own scenario — sequential mode,
`progress_interval = 100`, `count = 250`, start 1000 — the run terminates
by reaching the count limit, which performs no final checkpoint write, so
the checkpoint file ends holding 1200 (the last periodic write), not 1249
as the claim states. -/
theorem checkpoint_final_value_counterexample :
    (scanRun cfgC2 300 (scanInit cfgC2 rngC2)).map (fun s => s.progress)
      = some (some 1200) ∧
    some (some (1200 : Nat)) ≠ some (some (1249 : Nat)) := by
  constructor
  · decide
  · decide

set_option maxRecDepth 100000 in
set_option maxHeartbeats 1000000 in
/-- C2, amended: in sequential mode a checkpoint write with the terminating
value occurs at every termination by a finding (`NontrivialCycle` or
`StepsOverflow`); termination by the count limit performs no extra write,
leaving the last periodic write in place.  In particular the run with
`progress_interval = 100`, `count = 250`, start 1000 ends with the
checkpoint file holding 1200, its write log being exactly
1000, 1000, 1100, 1200, and the checkpointed value never decreases during
the run. -/
theorem checkpoint_termination_behavior (cfg : Config) (st st' : ScanState)
    (stop : Bool) (c : Nat) (rng' : Rng) (oc : Outcome)
    (hr : cfg.random = false)
    (hc : pickCandidate cfg st = some (c, rng'))
    (ho : detect_outcome c cfg.walkFuel = some oc)
    (hoc : oc ≠ Outcome.ReachesOne)
    (h : scanIter cfg st = some (st', stop)) :
    st'.progress = some c ∧ stop = true ∧
    (scanRun cfgC2 300 (scanInit cfgC2 rngC2)).map
        (fun s => (s.progress, s.progressWrites, s.solution))
      = some (some 1200, [1000, 1000, 1100, 1200], none) ∧
    List.Chain' (fun x y => x ≤ y) [1000, 1000, 1100, 1200] := by
  refine ⟨?_, ?_, by decide, by simp [List.chain'_cons]⟩
  all_goals
    unfold scanIter at h
    simp only [hc, ho] at h
    injection h with h
    have hst := congrArg Prod.fst h
    have hstop := congrArg Prod.snd h
    simp only at hst hstop
    obtain ⟨q1, q2, -⟩ :=
      scanOutcome_finding_seq cfg
        (scanProgressViz cfg
          { st with rng := rng', candidates := st.candidates ++ [c] } c)
        c oc hr hoc
  · rw [← hst, q2]
  · rw [← hstop, q1]

/-- C2 witness for the amended claim: a sequential scan from 0 hits the
nontrivial cycle at candidate 0 and checkpoints the terminating value. -/
theorem checkpoint_termination_behavior_witness :
    stOutC2W.progress = some 0 ∧ true = true ∧
    (scanRun cfgC2 300 (scanInit cfgC2 rngC2)).map
        (fun s => (s.progress, s.progressWrites, s.solution))
      = some (some 1200, [1000, 1000, 1100, 1200], none) ∧
    List.Chain' (fun x y => x ≤ y) [1000, 1000, 1100, 1200] :=
  checkpoint_termination_behavior cfgC2W stInC2W stOutC2W true 0 ⟨5, 6⟩
    Outcome.NontrivialCycle (by decide) (by decide) (by decide) (by decide)
    (by decide)
